import Mathlib

/-!
Verification of the Blitz broadcast core (Go sources) against its design
specification.  The Go functions are shallowly embedded as Lean functions:
the broadcast hub (`src/utils/websocket/channel.go`, broadcast revision),
the connection handler (`src/utils/websocket/handler.go`), the command
dispatcher (`src/utils/player/commands.go`) and the interval poller
(`utils/poller` package).  Go's `map[string]*Client` registry is modelled
as a list of clients keyed by their `ID` field; a Go channel of capacity
`cap` is modelled as a bounded FIFO list; a non-blocking `select` send is
modelled as enqueue-if-room-else-drop.
-/

namespace Blitz

/-- `models.ServerResponse`: the wire-level message envelope
(`Status`, `Message`, `Data`).  `Data` is declared `any` in Go; the code
paths verified here only ever store string-keyed string maps in it, so it
is modelled as an association list. -/
structure ServerResponse where
  status : String
  message : String
  data : List (String × String)
deriving DecidableEq, Repr

/-- A Go channel `chan models.ServerResponse` with buffer capacity `cap`:
`buf` is the FIFO buffer (front = next to be received), `closed` records
whether `close` has been called on it. -/
structure Chan where
  buf : List ServerResponse
  cap : Nat
  closed : Bool
deriving DecidableEq, Repr

/-- `websocket.Client` from channel.go: connection id plus the outbound
`Send` channel (the transport handle itself carries no state we verify). -/
structure Client where
  id : String
  send : Chan
deriving DecidableEq, Repr

/-- The hub registry `clients map[string]*Client`, modelled as a list of
clients; the map keys are the `id` fields. -/
abbrev HubState := List Client

/-- The non-blocking send `select { case ch <- msg: ... default: ... }`
performed by `BroadcastMessage`: enqueue when the buffer has room,
otherwise drop the message. -/
def trySend (q : Chan) (m : ServerResponse) : Chan :=
  if q.buf.length < q.cap then { q with buf := q.buf ++ [m] } else q

/-- `BroadcastMessage` (channel.go lines 139-159): if no clients are
registered, return after logging; otherwise attempt a non-blocking send of
`msg` to every registered client's `Send` channel. -/
def BroadcastMessage (m : ServerResponse) (s : HubState) : HubState :=
  if s.length = 0 then s
  else s.map fun c => { c with send := trySend c.send m }

/-- `RegisterClient` (channel.go lines 86-92): `clients[client.ID] = client`,
i.e. map insertion, replacing any entry with the same id. -/
def RegisterClient (c : Client) (s : HubState) : HubState :=
  if s.any fun x => x.id == c.id then
    s.map fun x => if x.id == c.id then c else x
  else s ++ [c]

/-- `UnregisterClient` (channel.go lines 94-103): when the id is present,
`close(client.Send)` then `delete(clients, clientID)`; otherwise nothing
happens.  The second component counts how many `close` operations the call
performed, so that close-exactly-once is expressible. -/
def UnregisterClient (id : String) (s : HubState) : HubState × Nat :=
  if s.any fun x => x.id == id then
    (s.filter fun x => x.id != id, 1)
  else (s, 0)

/-- `GetClientCount` (channel.go lines 161-166): `len(clients)`. -/
def GetClientCount (s : HubState) : Nat := s.length

/-- Folding `RegisterClient` over a list of sessions, starting from a given
registry (models M successive register calls). -/
def registerAll (cs : List Client) (s : HubState) : HubState :=
  cs.foldl (fun t c => RegisterClient c t) s

/-- Folding `UnregisterClient` over a list of ids (models K successive
unregister calls; the close counters are discarded). -/
def unregisterAll (ks : List String) (s : HubState) : HubState :=
  ks.foldl (fun t k => (UnregisterClient k t).1) s

section BroadcastLemmas

theorem broadcast_getElem? (m : ServerResponse) (s : HubState) (i : Nat)
    (hs : s ≠ []) :
    (BroadcastMessage m s)[i]? =
      (s[i]?).map fun c => { c with send := trySend c.send m } := by
  unfold BroadcastMessage
  rw [if_neg (by simpa using List.length_pos.mpr hs |>.ne.symm)]
  exact List.getElem?_map _ s i

theorem trySend_of_room (q : Chan) (m : ServerResponse)
    (h : q.buf.length < q.cap) :
    trySend q m = { q with buf := q.buf ++ [m] } := by
  unfold trySend; rw [if_pos h]

theorem trySend_of_full (q : Chan) (m : ServerResponse)
    (h : ¬ q.buf.length < q.cap) :
    trySend q m = q := by
  unfold trySend; rw [if_neg h]

end BroadcastLemmas

/-- C1: a single `BroadcastMessage m` call on a registry of N sessions, each
of whose outbound queues has spare capacity, enqueues `m` at the back of
every one of the N sessions' queues (the registry keeps its length, and the
session at every index receives `m`), not merely a subset. -/
theorem broadcast_reaches_all_sessions (m : ServerResponse) (s : HubState)
    (hroom : ∀ c ∈ s, c.send.buf.length < c.send.cap) :
    (BroadcastMessage m s).length = s.length ∧
    ∀ (i : Nat) (c : Client), s[i]? = some c →
      (BroadcastMessage m s)[i]? =
        some { c with send := { c.send with buf := c.send.buf ++ [m] } } := by
  rcases eq_or_ne s [] with rfl | hs
  · refine ⟨rfl, ?_⟩
    intro i c hc
    simp at hc
  · constructor
    · unfold BroadcastMessage
      rw [if_neg (by simpa using List.length_pos.mpr hs |>.ne.symm)]
      exact List.length_map _ _
    · intro i c hc
      rw [broadcast_getElem? m s i hs, hc]
      have hmem : c ∈ s := by
        rcases List.getElem?_eq_some.mp hc with ⟨h1, h2⟩
        exact h2 ▸ List.getElem_mem h1
      simp only [Option.map_some']
      rw [trySend_of_room c.send m (hroom c hmem)]

/-- C1 witness: three registered sessions with room; a single broadcast
reaches all three. -/
theorem broadcast_reaches_all_sessions_witness :
    (∀ c ∈ ([⟨"a", ⟨[], 1, false⟩⟩, ⟨"b", ⟨[], 2, false⟩⟩,
             ⟨"c", ⟨[], 3, false⟩⟩] : HubState),
        c.send.buf.length < c.send.cap) ∧
    ∀ (i : Nat) (c : Client),
      ([⟨"a", ⟨[], 1, false⟩⟩, ⟨"b", ⟨[], 2, false⟩⟩,
        ⟨"c", ⟨[], 3, false⟩⟩] : HubState)[i]? = some c →
      (BroadcastMessage ⟨"player", "m", []⟩
        [⟨"a", ⟨[], 1, false⟩⟩, ⟨"b", ⟨[], 2, false⟩⟩,
         ⟨"c", ⟨[], 3, false⟩⟩])[i]? =
        some { c with send := { c.send with buf := c.send.buf ++ [⟨"player", "m", []⟩] } } :=
  ⟨by decide,
   (broadcast_reaches_all_sessions ⟨"player", "m", []⟩ _ (by decide)).2⟩

/-- C2: when the session at index `i` has a full queue at broadcast time,
the message is dropped for that session only: its client record is left
unchanged, while every session whose queue has spare capacity still gets
`m` appended (and the call, being a total function, completes). -/
theorem broadcast_full_queue_isolated (m : ServerResponse) (s : HubState)
    (i : Nat) (c : Client) (hc : s[i]? = some c)
    (hfull : ¬ c.send.buf.length < c.send.cap) :
    (BroadcastMessage m s)[i]? = some c ∧
    ∀ (j : Nat) (d : Client), s[j]? = some d →
      d.send.buf.length < d.send.cap →
      (BroadcastMessage m s)[j]? =
        some { d with send := { d.send with buf := d.send.buf ++ [m] } } := by
  have hs : s ≠ [] := by
    intro h
    subst h
    simp at hc
  constructor
  · rw [broadcast_getElem? m s i hs, hc]
    simp only [Option.map_some']
    rw [trySend_of_full c.send m hfull]
  · intro j d hd hroom
    rw [broadcast_getElem? m s j hs, hd]
    simp only [Option.map_some']
    rw [trySend_of_room d.send m hroom]

/-- C2 witness: session 0 is full (capacity 0), session 1 has room;
broadcasting drops for session 0 only and still delivers to session 1. -/
theorem broadcast_full_queue_isolated_witness :
    ((BroadcastMessage ⟨"player", "m", []⟩
        [⟨"slow", ⟨[], 0, false⟩⟩, ⟨"ok", ⟨[], 5, false⟩⟩])[0]? =
      some ⟨"slow", ⟨[], 0, false⟩⟩) ∧
    (BroadcastMessage ⟨"player", "m", []⟩
        [⟨"slow", ⟨[], 0, false⟩⟩, ⟨"ok", ⟨[], 5, false⟩⟩])[1]? =
      some ⟨"ok", ⟨[⟨"player", "m", []⟩], 5, false⟩⟩ := by
  have h := broadcast_full_queue_isolated ⟨"player", "m", []⟩
    [⟨"slow", ⟨[], 0, false⟩⟩, ⟨"ok", ⟨[], 5, false⟩⟩] 0
    ⟨"slow", ⟨[], 0, false⟩⟩ (by decide) (by decide)
  exact ⟨h.1, h.2 1 ⟨"ok", ⟨[], 5, false⟩⟩ (by decide) (by decide)⟩

section RegistryLemmas

/-- The list of registered session ids (the keys of the Go map). -/
def hubIds (s : HubState) : List String := s.map fun c => c.id

theorem unregister_filter (id : String) (s : HubState) :
    (UnregisterClient id s).1 = s.filter fun x => x.id != id := by
  unfold UnregisterClient
  split
  · rfl
  · rename_i h
    rw [List.filter_eq_self.mpr]
    intro a ha
    simp only [bne_iff_ne, ne_eq]
    intro heq
    exact h (List.any_eq_true.mpr ⟨a, ha, by simpa using heq⟩)

theorem register_fresh (c : Client) (s : HubState)
    (h : ∀ x ∈ s, x.id ≠ c.id) : RegisterClient c s = s ++ [c] := by
  unfold RegisterClient
  rw [if_neg]
  intro hany
  rcases List.any_eq_true.mp hany with ⟨x, hx, hbx⟩
  exact h x hx (by simpa using hbx)

theorem registerAll_of_nodup (cs : List Client) : ∀ s : HubState,
    (hubIds s ++ hubIds cs).Nodup → registerAll cs s = s ++ cs := by
  induction cs with
  | nil =>
    intro s _
    simp [registerAll]
  | cons c cs ih =>
    intro s h
    have hfresh : ∀ x ∈ s, x.id ≠ c.id := by
      intro x hx heq
      have h1 : c.id ∈ hubIds s := heq ▸ List.mem_map_of_mem _ hx
      have h2 := (List.nodup_append.mp h).2.2
      exact h2 h1 (by simp [hubIds])
    have hstep : registerAll (c :: cs) s = registerAll cs (s ++ [c]) := by
      simp [registerAll, register_fresh c s hfresh]
    have h2 : (hubIds (s ++ [c]) ++ hubIds cs).Nodup := by
      simpa [hubIds, List.append_assoc] using h
    rw [hstep, ih (s ++ [c]) h2]
    simp

theorem hubIds_filter (s : HubState) (a : String) :
    hubIds (s.filter fun x => x.id != a) = (hubIds s).filter fun b => b != a := by
  induction s with
  | nil => rfl
  | cons c cs ih =>
    simp only [hubIds, List.map_cons, List.filter_cons] at ih ⊢
    by_cases h : (c.id != a) = true
    · simp [h, ih]
    · simp [h, ih]

theorem length_filter_ne (l : List String) (a : String) (hnd : l.Nodup)
    (ha : a ∈ l) : (l.filter fun b => b != a).length + 1 = l.length := by
  induction l with
  | nil => cases ha
  | cons x xs ih =>
    have hx : x ∉ xs := (List.nodup_cons.mp hnd).1
    rcases List.mem_cons.mp ha with rfl | hmem
    · rw [List.filter_cons_of_neg (by simp)]
      rw [List.filter_eq_self.mpr]
      · simp
      · intro b hb
        simp only [bne_iff_ne, ne_eq]
        intro heq
        exact hx (heq ▸ hb)
    · have hxa : x ≠ a := by
        intro heq
        exact hx (heq ▸ hmem)
      rw [List.filter_cons_of_pos (by simpa using hxa)]
      simp only [List.length_cons]
      rw [ih (List.nodup_cons.mp hnd).2 hmem]

theorem unregisterAll_length (ks : List String) : ∀ s : HubState,
    (hubIds s).Nodup → ks.Nodup → (∀ k ∈ ks, k ∈ hubIds s) →
    (unregisterAll ks s).length = s.length - ks.length := by
  induction ks with
  | nil =>
    intro s _ _ _
    simp [unregisterAll]
  | cons a ks ih =>
    intro s hs hks hsub
    have hids : hubIds (UnregisterClient a s).1 =
        (hubIds s).filter fun b => b != a := by
      rw [unregister_filter, hubIds_filter]
    have hlen : (UnregisterClient a s).1.length + 1 = s.length := by
      have h1 := length_filter_ne (hubIds s) a hs (hsub a (by simp))
      calc (UnregisterClient a s).1.length + 1
          = (hubIds (UnregisterClient a s).1).length + 1 := by simp [hubIds]
        _ = ((hubIds s).filter fun b => b != a).length + 1 := by rw [hids]
        _ = (hubIds s).length := h1
        _ = s.length := by simp [hubIds]
    have hnd2 : (hubIds (UnregisterClient a s).1).Nodup := by
      rw [hids]
      exact hs.filter _
    have hks2 : ks.Nodup := (List.nodup_cons.mp hks).2
    have hsub2 : ∀ k ∈ ks, k ∈ hubIds (UnregisterClient a s).1 := by
      intro k hk
      rw [hids]
      refine List.mem_filter.mpr ⟨hsub k (by simp [hk]), ?_⟩
      have hka : k ≠ a := by
        intro heq
        exact (List.nodup_cons.mp hks).1 (heq ▸ hk)
      simpa using hka
    have hfold : unregisterAll (a :: ks) s =
        unregisterAll ks (UnregisterClient a s).1 := rfl
    rw [hfold, ih (UnregisterClient a s).1 hnd2 hks2 hsub2]
    simp only [List.length_cons]
    omega

end RegistryLemmas

/-- C4: starting from an empty registry, M `RegisterClient` calls with
distinct session ids followed by K < M `UnregisterClient` calls on
distinct previously-registered ids leave `GetClientCount` equal to M - K. -/
theorem client_count_after_churn (cs : List Client) (ks : List String)
    (hcs : (hubIds cs).Nodup) (hks : ks.Nodup)
    (hsub : ∀ k ∈ ks, k ∈ hubIds cs) (hlt : ks.length < cs.length) :
    GetClientCount (unregisterAll ks (registerAll cs [])) =
      cs.length - ks.length := by
  have hreg : registerAll cs [] = cs := by
    have h := registerAll_of_nodup cs [] (by simpa [hubIds] using hcs)
    simpa using h
  rw [hreg]
  exact unregisterAll_length ks cs hcs hks hsub

/-- C4 witness: three registers, one unregister, count is 2. -/
theorem client_count_after_churn_witness :
    (hubIds [⟨"a", ⟨[], 0, false⟩⟩, ⟨"b", ⟨[], 0, false⟩⟩,
             ⟨"c", ⟨[], 0, false⟩⟩]).Nodup ∧
    GetClientCount (unregisterAll ["b"]
      (registerAll [⟨"a", ⟨[], 0, false⟩⟩, ⟨"b", ⟨[], 0, false⟩⟩,
                    ⟨"c", ⟨[], 0, false⟩⟩] [])) = 3 - 1 :=
  ⟨by decide,
   client_count_after_churn _ _ (by decide) (by decide) (by decide) (by decide)⟩

/-- C5: `UnregisterClient` is idempotent: on an absent id it returns the
registry unchanged and performs no close; on a present id it performs
exactly one close and removes every client with that id; and calling it
again right after always changes nothing and closes nothing. -/
theorem unregister_idempotent (id : String) (s : HubState) :
    ((∀ c ∈ s, c.id ≠ id) → UnregisterClient id s = (s, 0)) ∧
    ((∃ c ∈ s, c.id = id) →
      (UnregisterClient id s).2 = 1 ∧
      ∀ c ∈ (UnregisterClient id s).1, c.id ≠ id) ∧
    UnregisterClient id (UnregisterClient id s).1 =
      ((UnregisterClient id s).1, 0) := by
  have habs : ∀ t : HubState, (∀ c ∈ t, c.id ≠ id) →
      UnregisterClient id t = (t, 0) := by
    intro t ht
    unfold UnregisterClient
    rw [if_neg]
    intro h
    rcases List.any_eq_true.mp h with ⟨x, hx, hbx⟩
    exact ht x hx (by simpa using hbx)
  have hrem : ∀ c ∈ (UnregisterClient id s).1, c.id ≠ id := by
    intro d hd
    rw [unregister_filter] at hd
    simpa using (List.mem_filter.mp hd).2
  refine ⟨habs s, fun hex => ⟨?_, hrem⟩, habs _ hrem⟩
  rcases hex with ⟨c, hc, hcid⟩
  unfold UnregisterClient
  rw [if_pos (List.any_eq_true.mpr ⟨c, hc, by simpa using hcid⟩)]

/-- C5 witness: unregistering an absent id is a no-op with zero closes;
unregistering the present id closes once and removes it; a repeated call
is a no-op. -/
theorem unregister_idempotent_witness :
    UnregisterClient "z" [⟨"a", ⟨[], 0, false⟩⟩] =
      ([⟨"a", ⟨[], 0, false⟩⟩], 0) ∧
    ((UnregisterClient "a" [⟨"a", ⟨[], 0, false⟩⟩]).2 = 1 ∧
      ∀ c ∈ (UnregisterClient "a" [⟨"a", ⟨[], 0, false⟩⟩]).1, c.id ≠ "a") ∧
    UnregisterClient "a" (UnregisterClient "a" [⟨"a", ⟨[], 0, false⟩⟩]).1 =
      ((UnregisterClient "a" [⟨"a", ⟨[], 0, false⟩⟩]).1, 0) :=
  ⟨(unregister_idempotent "z" _).1 (by decide),
   (unregister_idempotent "a" _).2.1 ⟨⟨"a", ⟨[], 0, false⟩⟩, by simp, rfl⟩,
   (unregister_idempotent "a" [⟨"a", ⟨[], 0, false⟩⟩]).2.2⟩

section Fifo

/-- An interleaving event for one tracked session: either the hub
broadcasts a message (`BroadcastMessage`), or the session's writer
goroutine (handler.go lines 44-54, `for response := range client.Send`)
receives the next queued message and writes it to the transport. -/
inductive HubEvent where
  | bcast (m : ServerResponse)
  | deliver
deriving DecidableEq, Repr

/-- One event acting on a single session's queue together with the list of
messages its writer has delivered so far: a broadcast is the non-blocking
`trySend`; a deliver removes the front of the FIFO buffer and appends it to
the delivered list (a receive on an empty channel blocks, so nothing
happens). -/
def qStep (p : Chan × List ServerResponse) (e : HubEvent) :
    Chan × List ServerResponse :=
  match e with
  | HubEvent.bcast m => (trySend p.1 m, p.2)
  | HubEvent.deliver =>
    ({ p.1 with buf := p.1.buf.drop 1 }, p.2 ++ p.1.buf.take 1)

/-- Run a trace of events against one session's queue, starting with an
empty delivered list. -/
def qRun (q : Chan) (evs : List HubEvent) : Chan × List ServerResponse :=
  evs.foldl qStep (q, [])

/-- One event acting on the whole hub, tracking the writer of the session
at index `i`: a broadcast is `BroadcastMessage` on the registry; a deliver
pops the front of session i's queue into its delivered list. -/
def hubStep (i : Nat) (p : HubState × List ServerResponse) (e : HubEvent) :
    HubState × List ServerResponse :=
  match e with
  | HubEvent.bcast m => (BroadcastMessage m p.1, p.2)
  | HubEvent.deliver =>
    match p.1[i]? with
    | some c =>
      (p.1.set i { c with send := { c.send with buf := c.send.buf.drop 1 } },
       p.2 ++ c.send.buf.take 1)
    | none => p

/-- Run a trace of events against the hub, tracking session `i`. -/
def hubRun (i : Nat) (s : HubState) (evs : List HubEvent) :
    HubState × List ServerResponse :=
  evs.foldl (hubStep i) (s, [])

/-- The messages a given queue accepts (is not forced to drop) along a
trace, in broadcast order: a broadcast message is accepted exactly when
the non-blocking send finds room. -/
def acceptedOf (q : Chan) : List HubEvent → List ServerResponse
  | [] => []
  | HubEvent.bcast m :: evs =>
    if q.buf.length < q.cap then m :: acceptedOf (trySend q m) evs
    else acceptedOf q evs
  | HubEvent.deliver :: evs => acceptedOf { q with buf := q.buf.drop 1 } evs

/-- All messages broadcast along a trace, in call order. -/
def bcastsOf : List HubEvent → List ServerResponse
  | [] => []
  | HubEvent.bcast m :: evs => m :: bcastsOf evs
  | HubEvent.deliver :: evs => bcastsOf evs

theorem qfold_partition (evs : List HubEvent) :
    ∀ (q : Chan) (out : List ServerResponse),
      (evs.foldl qStep (q, out)).2 ++ (evs.foldl qStep (q, out)).1.buf =
        out ++ q.buf ++ acceptedOf q evs := by
  induction evs with
  | nil =>
    intro q out
    simp [acceptedOf, List.append_assoc]
  | cons e evs ih =>
    intro q out
    match e with
    | HubEvent.bcast m =>
      have hstep : qStep (q, out) (HubEvent.bcast m) = (trySend q m, out) := rfl
      rw [List.foldl_cons, hstep]
      by_cases h : q.buf.length < q.cap
      · rw [ih (trySend q m) out]
        simp only [acceptedOf]
        rw [if_pos h, trySend_of_room q m h]
        simp [List.append_assoc]
      · rw [ih (trySend q m) out, trySend_of_full q m h]
        simp only [acceptedOf]
        rw [if_neg h]
    | HubEvent.deliver =>
      have hstep : qStep (q, out) HubEvent.deliver =
          ({ q with buf := q.buf.drop 1 }, out ++ q.buf.take 1) := rfl
      rw [List.foldl_cons, hstep,
        ih { q with buf := q.buf.drop 1 } (out ++ q.buf.take 1)]
      simp only [acceptedOf]
      rw [List.append_assoc out (q.buf.take 1) (q.buf.drop 1),
        List.take_append_drop]

theorem accepted_sublist (evs : List HubEvent) :
    ∀ q : Chan, (acceptedOf q evs).Sublist (bcastsOf evs) := by
  induction evs with
  | nil =>
    intro q
    simp [acceptedOf, bcastsOf]
  | cons e evs ih =>
    intro q
    match e with
    | HubEvent.bcast m =>
      rw [acceptedOf, bcastsOf]
      by_cases h : q.buf.length < q.cap
      · rw [if_pos h]
        exact (ih (trySend q m)).cons₂ m
      · rw [if_neg h]
        exact (ih q).cons m
    | HubEvent.deliver =>
      rw [acceptedOf, bcastsOf]
      exact ih _

theorem hubfold_project (i : Nat) (evs : List HubEvent) :
    ∀ (s : HubState) (c : Client) (out : List ServerResponse),
      s[i]? = some c →
      (evs.foldl (hubStep i) (s, out)).2 = (evs.foldl qStep (c.send, out)).2 ∧
      ∃ d : Client, (evs.foldl (hubStep i) (s, out)).1[i]? = some d ∧
        d.id = c.id ∧ d.send = (evs.foldl qStep (c.send, out)).1 := by
  induction evs with
  | nil =>
    intro s c out hc
    exact ⟨rfl, c, hc, rfl, rfl⟩
  | cons e evs ih =>
    intro s c out hc
    have hs : s ≠ [] := by
      intro h
      subst h
      simp at hc
    match e with
    | HubEvent.bcast m =>
      rw [List.foldl_cons, List.foldl_cons]
      show (evs.foldl (hubStep i) (BroadcastMessage m s, out)).2 = _ ∧ _
      have hc2 : (BroadcastMessage m s)[i]? =
          some { c with send := trySend c.send m } := by
        rw [broadcast_getElem? m s i hs, hc]
        rfl
      exact ih (BroadcastMessage m s) { c with send := trySend c.send m } out hc2
    | HubEvent.deliver =>
      rw [List.foldl_cons, List.foldl_cons]
      have hstep : hubStep i (s, out) HubEvent.deliver =
          (s.set i { c with send := { c.send with buf := c.send.buf.drop 1 } },
           out ++ c.send.buf.take 1) := by
        unfold hubStep
        rw [hc]
      rw [hstep]
      have hlt : i < s.length := (List.getElem?_eq_some.mp hc).1
      have hc3 : (s.set i
          { c with send := { c.send with buf := c.send.buf.drop 1 } })[i]? =
          some { c with send := { c.send with buf := c.send.buf.drop 1 } } :=
        List.getElem?_set_eq_of_lt _ hlt
      exact ih _ _ _ hc3

end Fifo

/-- C3: per-session FIFO delivery.  For the session at index `i` (queue
initially empty) and any interleaving of `BroadcastMessage` calls with the
session writer's receives, the messages the writer has delivered, followed
by the messages still queued, are exactly the non-dropped broadcast
messages in the order the broadcasts were made; and those non-dropped
messages form an order-preserving sublist of all broadcast messages. -/
theorem per_session_fifo (i : Nat) (s : HubState) (c : Client)
    (evs : List HubEvent) (hc : s[i]? = some c) (hinit : c.send.buf = []) :
    (∃ d : Client, (hubRun i s evs).1[i]? = some d ∧ d.id = c.id ∧
      (hubRun i s evs).2 ++ d.send.buf = acceptedOf c.send evs) ∧
    (acceptedOf c.send evs).Sublist (bcastsOf evs) := by
  have hproj := hubfold_project i evs s c [] hc
  rcases hproj with ⟨hout, d, hd, hid, hsend⟩
  have hpart := qfold_partition evs c.send []
  refine ⟨⟨d, hd, hid, ?_⟩, accepted_sublist evs c.send⟩
  unfold hubRun
  rw [hout, hsend]
  show (evs.foldl qStep (c.send, [])).2 ++ (evs.foldl qStep (c.send, [])).1.buf = _
  rw [hpart, hinit]
  simp

/-- C3 witness: one session, trace broadcast-deliver-broadcast; delivered
plus still-queued equals both broadcasts in order. -/
theorem per_session_fifo_witness :
    (∃ d : Client,
      (hubRun 0 [⟨"a", ⟨[], 2, false⟩⟩]
        [HubEvent.bcast ⟨"player", "one", []⟩, HubEvent.deliver,
         HubEvent.bcast ⟨"player", "two", []⟩]).1[0]? = some d ∧
      d.id = "a" ∧
      (hubRun 0 [⟨"a", ⟨[], 2, false⟩⟩]
        [HubEvent.bcast ⟨"player", "one", []⟩, HubEvent.deliver,
         HubEvent.bcast ⟨"player", "two", []⟩]).2 ++ d.send.buf =
        acceptedOf ⟨[], 2, false⟩
          [HubEvent.bcast ⟨"player", "one", []⟩, HubEvent.deliver,
           HubEvent.bcast ⟨"player", "two", []⟩]) ∧
    (acceptedOf ⟨[], 2, false⟩
        [HubEvent.bcast ⟨"player", "one", []⟩, HubEvent.deliver,
         HubEvent.bcast ⟨"player", "two", []⟩]).Sublist
      (bcastsOf
        [HubEvent.bcast ⟨"player", "one", []⟩, HubEvent.deliver,
         HubEvent.bcast ⟨"player", "two", []⟩]) :=
  per_session_fifo 0 [⟨"a", ⟨[], 2, false⟩⟩] ⟨"a", ⟨[], 2, false⟩⟩ _
    (by decide) (by decide)

section Commands

/-- A value found in a parsed inbound JSON object: either a JSON string or
any non-string value.  `other` carries the text Go's `%v` formatting would
render that value as, so the handler's `fmt.Sprintf` has a total model. -/
inductive CmdVal where
  | str (s : String)
  | other (rendered : String)
deriving DecidableEq, Repr

/-- A parsed inbound frame, Go's `map[string]interface{}` produced by
`conn.ReadJSON`. -/
abbrev Frame := List (String × CmdVal)

/-- Go map lookup `msg[k]`. -/
def lookupKey (f : Frame) (k : String) : Option CmdVal :=
  (f.find? fun p => p.1 == k).map fun p => p.2

/-- The command allowlist of `HandlePlayerCommand` (commands.go lines
23-42): each recognized command name maps to the argument list its helper
passes to `utils.SpawnProcess("playerctl", ...)` (`Play` -> play, `Pause`
-> pause, `TogglePlayPause` -> play-pause, `Next` -> next, `Previous` ->
previous, `VolumeUp`/`VolumeDown` -> volume 0.05+/0.05-, `Stop` -> stop);
names outside the allowlist map to `none` (the `default:` branch). -/
def playerArgs (c : String) : Option (List String) :=
  if c = "play" then some ["play"]
  else if c = "pause" then some ["pause"]
  else if c = "player_toggle" ∨ c = "play-pause" then some ["play-pause"]
  else if c = "next" ∨ c = "player_next" then some ["next"]
  else if c = "prev" ∨ c = "player_prev" then some ["previous"]
  else if c = "volume_up" ∨ c = "player_volume_up" then
    some ["volume", "0.05+"]
  else if c = "volume_down" ∨ c = "player_volume_down" then
    some ["volume", "0.05-"]
  else if c = "stop" then some ["stop"]
  else none

/-- `player.HandlePlayerCommand` (commands.go lines 15-43).  `exec` is the
external executor (`utils.SpawnProcess`), abstracted as an oracle from
invocation to success or error.  Returns the dispatch result together with
the list of external process invocations performed, so that
never-spawns-a-process is expressible. -/
def HandlePlayerCommand (exec : String → List String → Except String Unit)
    (cmdData : Frame) : Except String Unit × List (String × List String) :=
  match lookupKey cmdData "command" with
  | some (CmdVal.str c) =>
    match playerArgs c with
    | some args => (exec "playerctl" args, [("playerctl", args)])
    | none => (Except.error ("unknown command: " ++ c), [])
  | _ => (Except.error "invalid command format", [])

/-- Go's `fmt.Sprintf("%v", v)` on the raw command value. -/
def fmtv : CmdVal → String
  | CmdVal.str s => s
  | CmdVal.other r => r

/-- One iteration of the reader loop in `Handle` (handler.go lines 56-93)
on a parsed frame: when the frame has a `command` key, dispatch it through
`HandlePlayerCommand`; a failed dispatch answers the requesting client
with status `error`, message `command_failed` and the error text under the
`error` key of the data, a successful one with status `success`, message
`command_executed` and the command name under the `command` key of the
data.  A frame without a `command` key produces no response and no
dispatch, and the loop just continues reading.  Returns the response sent
to this client, if any, with the external invocations performed. -/
def handleFrame (exec : String → List String → Except String Unit)
    (frame : Frame) : Option ServerResponse × List (String × List String) :=
  match lookupKey frame "command" with
  | none => (none, [])
  | some v =>
    match HandlePlayerCommand exec frame with
    | (Except.error e, spawns) =>
      (some { status := "error", message := "command_failed",
              data := [("error", e)] }, spawns)
    | (Except.ok _, spawns) =>
      (some { status := "success", message := "command_executed",
              data := [("command", fmtv v)] }, spawns)

end Commands

/-- C6 counterexample: the claim says the error response to an unknown
command has message `unknown command: <name>`; the code instead sends
message `command_failed` and puts that text under the data key `error`,
exhibited at the command string `launch`. -/
theorem unknown_command_response_shape :
    (handleFrame (fun _ _ => Except.ok ())
        [("command", CmdVal.str "launch")]).1 =
      some { status := "error", message := "command_failed",
             data := [("error", "unknown command: launch")] } ∧
    ("command_failed" = "unknown command: launch" → False) :=
  ⟨rfl, by decide⟩

/-- C6 (amended): for every inbound frame whose `command` value is a string
outside the allowlist, the handler answers the requesting client with an
error-status response whose message is `command_failed` and whose data
carries `unknown command: <name>` under the `error` key, and no external
executor is invoked (the spawn list is empty). -/
theorem unknown_command_rejected
    (exec : String → List String → Except String Unit) (frame : Frame)
    (name : String) (hk : lookupKey frame "command" = some (CmdVal.str name))
    (hu : playerArgs name = none) :
    handleFrame exec frame =
      (some { status := "error", message := "command_failed",
              data := [("error", "unknown command: " ++ name)] }, []) := by
  unfold handleFrame HandlePlayerCommand
  rw [hk]
  dsimp only
  rw [hu]

/-- C6 witness: the non-allowlisted command string `rm -rf /` draws the
error response and spawns nothing. -/
theorem unknown_command_rejected_witness :
    lookupKey [("command", CmdVal.str "rm -rf /")] "command" =
      some (CmdVal.str "rm -rf /") ∧
    playerArgs "rm -rf /" = none ∧
    handleFrame (fun _ _ => Except.ok ())
        [("command", CmdVal.str "rm -rf /")] =
      (some { status := "error", message := "command_failed",
              data := [("error", "unknown command: rm -rf /")] }, []) :=
  ⟨rfl, rfl,
   unknown_command_rejected (fun _ _ => Except.ok ()) _ "rm -rf /" rfl rfl⟩

/-- C7: for every recognized command whose execution succeeds, the response
sent back to the requesting client has status `success` and carries the
executed command's name in the `command` field of its data. -/
theorem recognized_command_success_response
    (exec : String → List String → Except String Unit) (frame : Frame)
    (name : String) (args : List String)
    (hk : lookupKey frame "command" = some (CmdVal.str name))
    (ha : playerArgs name = some args)
    (hok : exec "playerctl" args = Except.ok ()) :
    (handleFrame exec frame).1 =
      some { status := "success", message := "command_executed",
             data := [("command", name)] } := by
  unfold handleFrame HandlePlayerCommand
  rw [hk]
  dsimp only
  rw [ha]
  dsimp only
  rw [hok]
  rfl

/-- C7 witness: a successful `play` draws the success response naming
`play`. -/
theorem recognized_command_success_response_witness :
    lookupKey [("command", CmdVal.str "play")] "command" =
      some (CmdVal.str "play") ∧
    playerArgs "play" = some ["play"] ∧
    (handleFrame (fun _ _ => Except.ok ())
        [("command", CmdVal.str "play")]).1 =
      some { status := "success", message := "command_executed",
             data := [("command", "play")] } :=
  ⟨rfl, by decide,
   recognized_command_success_response (fun _ _ => Except.ok ()) _ "play"
     ["play"] rfl (by decide) rfl⟩

/-- C10: a parsed frame without a `command` key draws no response of any
kind and invokes no dispatch or executor, the reader loop merely
continuing; and a frame whose `command` value is not a string makes the
dispatcher return the error `invalid command format`, which the handler
reports to the client as an error response (no crash, no spawn). -/
theorem missing_or_malformed_command
    (exec : String → List String → Except String Unit) (frame : Frame) :
    (lookupKey frame "command" = none → handleFrame exec frame = (none, [])) ∧
    (∀ r : String, lookupKey frame "command" = some (CmdVal.other r) →
      handleFrame exec frame =
        (some { status := "error", message := "command_failed",
                data := [("error", "invalid command format")] }, [])) := by
  constructor
  · intro hk
    unfold handleFrame
    rw [hk]
  · intro r hk
    unfold handleFrame HandlePlayerCommand
    rw [hk]

/-- C10 witness: a frame with no `command` key is ignored; a frame whose
`command` value is the JSON number 42 draws the invalid-format error
response. -/
theorem missing_or_malformed_command_witness :
    (lookupKey [("volume", CmdVal.str "high")] "command" = none ∧
      handleFrame (fun _ _ => Except.ok ())
        [("volume", CmdVal.str "high")] = (none, [])) ∧
    (lookupKey [("command", CmdVal.other "42")] "command" =
        some (CmdVal.other "42") ∧
      handleFrame (fun _ _ => Except.ok ())
        [("command", CmdVal.other "42")] =
      (some { status := "error", message := "command_failed",
              data := [("error", "invalid command format")] }, [])) :=
  ⟨⟨rfl, (missing_or_malformed_command (fun _ _ => Except.ok ())
      [("volume", CmdVal.str "high")]).1 rfl⟩,
   ⟨rfl, (missing_or_malformed_command (fun _ _ => Except.ok ())
      [("command", CmdVal.other "42")]).2 "42" rfl⟩⟩

section HandlerQueue

/-- The outbound channel `Handle` creates for each new client session
(handler.go lines 21-25): `make(chan models.ServerResponse)` with the
comment "Unbuffered - fresh messages only", i.e. buffer capacity 0. -/
def handleSendQueue : Chan := { buf := [], cap := 0, closed := false }

/-- The outbound channel the earlier revision of `Handle` created
(part_005 lines 20-24): `make(chan models.ServerResponse, 100)`. -/
def legacyHandleSendQueue : Chan := { buf := [], cap := 100, closed := false }

theorem trySend_cap (q : Chan) (m : ServerResponse) :
    (trySend q m).cap = q.cap := by
  unfold trySend
  split <;> rfl

theorem trySend_length_le (q : Chan) (m : ServerResponse)
    (h : q.buf.length ≤ q.cap) : (trySend q m).buf.length ≤ q.cap := by
  unfold trySend
  split
  · rename_i hlt
    simpa using hlt
  · exact h

theorem foldl_trySend_length_le (msgs : List ServerResponse) :
    ∀ q : Chan, q.buf.length ≤ q.cap →
      (msgs.foldl trySend q).buf.length ≤ q.cap := by
  induction msgs with
  | nil =>
    intro q h
    exact h
  | cons m msgs ih =>
    intro q h
    rw [List.foldl_cons]
    have h2 := ih (trySend q m) (by rw [trySend_cap]; exact trySend_length_le q m h)
    rwa [trySend_cap] at h2

end HandlerQueue

/-- C8 counterexample: the claim says every session's outbound queue has
capacity 100; but the channel `Handle` actually creates is unbuffered
(capacity 0, not 100), and broadcasting to a freshly-created session with
zero pending messages already drops the message. -/
theorem outbound_capacity_not_100 :
    handleSendQueue.cap = 0 ∧ (handleSendQueue.cap = 100 → False) ∧
    BroadcastMessage ⟨"player", "m", []⟩ [⟨"a", handleSendQueue⟩] =
      [⟨"a", handleSendQueue⟩] := by
  refine ⟨rfl, by decide, ?_⟩
  rfl

/-- C8 (amended): every client session's outbound queue is a bounded FIFO
of ServerMessage with the capacity fixed at creation — 0 (unbuffered) in
the current `Handle`, 100 in the earlier revision: never more than `cap`
messages are buffered across any sequence of non-blocking enqueues, and an
enqueue into a session whose queue is at capacity drops the message rather
than blocking. -/
theorem outbound_queue_bounded (q : Chan) (m : ServerResponse)
    (msgs : List ServerResponse) (hq : q.buf.length ≤ q.cap) :
    (trySend q m).buf.length ≤ q.cap ∧
    (q.buf.length = q.cap → trySend q m = q) ∧
    (msgs.foldl trySend q).buf.length ≤ q.cap ∧
    handleSendQueue.cap = 0 ∧ legacyHandleSendQueue.cap = 100 := by
  refine ⟨trySend_length_le q m hq, ?_, foldl_trySend_length_le msgs q hq,
    rfl, rfl⟩
  intro he
  exact trySend_of_full q m (by omega)

/-- C8 witness: a queue of capacity 2 holding one message accepts one more,
drops at capacity, and never exceeds its bound over a burst of sends. -/
theorem outbound_queue_bounded_witness :
    (⟨[⟨"player", "a", []⟩], 2, false⟩ : Chan).buf.length ≤ 2 ∧
    ((trySend ⟨[⟨"player", "a", []⟩], 2, false⟩ ⟨"player", "b", []⟩).buf.length ≤ 2 ∧
      ((⟨[⟨"player", "a", []⟩], 2, false⟩ : Chan).buf.length = 2 →
        trySend ⟨[⟨"player", "a", []⟩], 2, false⟩ ⟨"player", "b", []⟩ =
          ⟨[⟨"player", "a", []⟩], 2, false⟩) ∧
      ([⟨"player", "b", []⟩, ⟨"player", "c", []⟩, ⟨"player", "d", []⟩].foldl
          trySend ⟨[⟨"player", "a", []⟩], 2, false⟩).buf.length ≤ 2 ∧
      handleSendQueue.cap = 0 ∧ legacyHandleSendQueue.cap = 100) :=
  ⟨by decide,
   outbound_queue_bounded ⟨[⟨"player", "a", []⟩], 2, false⟩ ⟨"player", "b", []⟩
     [⟨"player", "b", []⟩, ⟨"player", "c", []⟩, ⟨"player", "d", []⟩]
     (by decide)⟩

section PollerModel

/-- The two ways the `select` in the poller loop can be woken: a ticker
tick, or the quit channel. -/
inductive PollSig where
  | tick
  | quit
deriving DecidableEq, Repr

/-- The `for { select { ... } }` loop shared by both Poller revisions:
each tick runs `fn` once, the quit signal returns; the count of `fn`
invocations along a finite schedule of wakeups. -/
def pollerLoopCalls : List PollSig → Nat
  | [] => 0
  | PollSig.tick :: rest => 1 + pollerLoopCalls rest
  | PollSig.quit :: _ => 0

/-- `poller.Poller` (the live revision, package `utils/poller`, reached
from `main` via `poller.Handle`): `fn()` is called once before the loop is
entered, then the loop runs; the total number of `fn` invocations for a
given wakeup schedule. -/
def pollerCalls (sched : List PollSig) : Nat := 1 + pollerLoopCalls sched

/-- Modelled from src/utils/poller.go (an earlier revision, package
`utils`, not referenced by the live `main`): the same loop without the
initial `fn()` call. -/
def utilsPollerCalls (sched : List PollSig) : Nat := pollerLoopCalls sched

theorem pollerLoopCalls_replicate (n : Nat) :
    pollerLoopCalls (List.replicate n PollSig.tick) = n := by
  induction n with
  | zero => rfl
  | succ n ih =>
    rw [List.replicate_succ]
    show 1 + pollerLoopCalls (List.replicate n PollSig.tick) = n + 1
    omega

theorem pollerLoopCalls_replicate_quit (n : Nat) (rest : List PollSig) :
    pollerLoopCalls (List.replicate n PollSig.tick ++ PollSig.quit :: rest) = n := by
  induction n with
  | zero => rfl
  | succ n ih =>
    rw [List.replicate_succ, List.cons_append]
    show 1 + pollerLoopCalls (List.replicate n PollSig.tick ++ PollSig.quit :: rest) = n + 1
    omega

end PollerModel

/-- C9: the live Poller runs `fn` once immediately upon start, before any
tick has fired (empty schedule: one call); thereafter once per tick
(n ticks: 1 + n calls); and stops at the quit signal (events scheduled
after quit cause no further calls). -/
theorem poller_fire_on_start (n : Nat) (rest : List PollSig) :
    pollerCalls [] = 1 ∧
    pollerCalls (List.replicate n PollSig.tick) = 1 + n ∧
    pollerCalls (List.replicate n PollSig.tick ++ PollSig.quit :: rest) = 1 + n := by
  unfold pollerCalls
  rw [pollerLoopCalls_replicate n, pollerLoopCalls_replicate_quit n rest]
  exact ⟨rfl, rfl, rfl⟩

end Blitz
